import Mathlib

/-!
Verification of the secp256k1 ECDSA / Edwards25519 EdDSA signature engine
(repository `CJ-Labs/cryptography-go`).

The Go sources operate on `math/big.Int` values; we embed them as `ℤ`.
`big.Int.Mod` with a positive modulus returns the least non-negative
residue, which matches Lean's `Int.emod` (`%`).  Byte slices are embedded
as `List ℕ` whose elements are byte values.  The two hash collaborators
(SHA-256 and SHA-512) are external library calls in the source; following
the specification, which lists them as assumed collaborator contracts, the
embedded engines take the hash as an explicit function parameter.
-/

/-- Fueled extended Euclid on non-negative integers.  `egcd fuel a b`
returns `(g, x, y)` with `a*x + b*y = g = gcd a b` whenever `fuel > b`.
Structural recursion on the fuel keeps the definition kernel-evaluable. -/
def egcd : ℕ → ℤ → ℤ → ℤ × ℤ × ℤ
  | 0, a, _ => (a, 1, 0)
  | fuel + 1, a, b =>
    if b = 0 then (a, 1, 0)
    else
      let q := a / b
      let r := egcd fuel b (a % b)
      (r.1, r.2.2, r.2.1 - q * r.2.2)

/-- Bezout-coefficient modular inverse on the reduced residue, the value
`big.Int.ModInverse` produces when the inverse exists. -/
def bezoutInv (g m : ℤ) : ℤ :=
  ((egcd (m.toNat + 1) (g % m) m).2.1) % m

/-- Model of `big.Int.ModInverse(g, m)`: `none` exactly when `g` and `m`
are not coprime (Go returns `nil` there), otherwise the inverse in
`[0, m)`. -/
def modInverseGo (g m : ℤ) : Option ℤ :=
  if Int.gcd (g % m) m = 1 then some (bezoutInv g m) else none

/-- Total modular inverse used inside the curve formulas.  On the
branches the source actually reaches the inverse exists; where it does
not, Go would dereference the `nil` result and panic, so the default `0`
is never observable on the source's domain. -/
def modInverse (g m : ℤ) : ℤ :=
  (modInverseGo g m).getD 0

/-- Fueled, tail-recursive fast modular exponentiation (square-and-
multiply over the bits of `e`, least significant first), kernel-
evaluable. -/
def powModAux : ℕ → ℤ → ℕ → ℤ → ℤ → ℤ
  | 0, _, _, m, acc => acc % m
  | fuel + 1, b, e, m, acc =>
    if e = 0 then acc % m
    else
      powModAux fuel ((b * b) % m) (e / 2) m
        (if e % 2 = 1 then (acc * b) % m else acc)

/-- Modular exponentiation `a ^ e mod m`; models `big.Int.Exp(a, e, m)`
for non-negative exponent and positive modulus. -/
def powMod (a : ℤ) (e : ℕ) (m : ℤ) : ℤ :=
  powModAux (e + 1) (a % m) e m 1

/-- Model of `big.Int.SetBytes`: big-endian interpretation of a byte
slice. -/
def fromBytesBE (bs : List ℕ) : ℤ :=
  bs.foldl (fun acc b => acc * 256 + (b : ℤ)) 0

/-- Minimal big-endian byte representation, fueled; models
`big.Int.Bytes()` for non-negative values (`[]` for zero). -/
def natToBytesBEAux : ℕ → ℕ → List ℕ
  | 0, _ => []
  | fuel + 1, x =>
    if x = 0 then [] else natToBytesBEAux fuel (x / 256) ++ [x % 256]

/-- Minimal big-endian byte representation of a natural number. -/
def natToBytesBE (x : ℕ) : List ℕ :=
  natToBytesBEAux (x + 1) x

/-- Model of Go's `copy(dst, src)`: overwrite the first
`min (length dst) (length src)` entries of `dst` with those of `src`,
keeping the rest of `dst`. -/
def goCopy (dst src : List ℕ) : List ℕ :=
  let k := min dst.length src.length
  src.take k ++ dst.drop k

theorem goCopy_length (dst src : List ℕ) : (goCopy dst src).length = dst.length := by
  simp only [goCopy, List.length_append, List.length_take, List.length_drop]
  omega

/-! ## secp256k1 parameters (`ecdsa_test.go`) -/

/-- secp256k1 field prime `p`. -/
def p : ℤ := 0xFFFFFFFFFFFFFFFFFFFFFFFFFFFFFFFFFFFFFFFFFFFFFFFFFFFFFFFEFFFFFC2F

/-- secp256k1 generator x-coordinate `Gx`. -/
def Gx : ℤ := 0x79BE667EF9DCBBAC55A06295CE870B07029BFCDB2DCE28D959F2815B16F81798

/-- secp256k1 generator y-coordinate `Gy`. -/
def Gy : ℤ := 0x483ADA7726A3C4655DA4FBFC0E1108A8FD17B448A68554199C47D08FFB10D4B8

/-- secp256k1 group order `n` (aliased `curveOrder` in the source). -/
def n : ℤ := 0xFFFFFFFFFFFFFFFFFFFFFFFFFFFFFFFEBAAEDCE6AF48A03BBFD25E8CD0364141

/-- Weierstrass point addition from `ecdsa_test.go` (`ellipticCurveAdd`).
The point at infinity is represented as `(0, 0)`; the nested sign/compare
tests of the Go function are flattened into the equivalent guard
sequence. -/
def ellipticCurveAdd (x1 y1 x2 y2 : ℤ) : ℤ × ℤ :=
  if x1 = 0 ∧ y1 = 0 then (x2, y2)
  else if x2 = 0 ∧ y2 = 0 then (x1, y1)
  else if x1 = x2 ∧ y1 = y2 ∧ y1 = 0 then (0, 0)
  else if x1 = x2 ∧ y1 ≠ y2 then (0, 0)
  else
    let slope :=
      if x1 = x2 ∧ y1 = y2 then
        (modInverse ((y1 * 2) % p) p * ((x1 * x1 * 3) % p)) % p
      else
        (modInverse ((x2 - x1) % p) p * ((y2 - y1) % p)) % p
    let x3 := (slope * slope - x1 - x2) % p
    let y3 := ((x1 - x3) * slope - y1) % p
    (x3, y3)

/-- MSB-first bit list of a natural number (the bits `k.Bit(i)` for
`i = BitLen-1 .. 0` that `ellipticCurveMultiply` iterates over), fueled
for kernel evaluation. -/
def natBitsMSBAux : ℕ → ℕ → List Bool
  | 0, _ => []
  | fuel + 1, k =>
    if k = 0 then [] else natBitsMSBAux fuel (k / 2) ++ [decide (k % 2 = 1)]

/-- MSB-first bit list of a natural number. -/
def natBitsMSB (k : ℕ) : List Bool :=
  natBitsMSBAux (k + 1) k

/-- Double-and-add loop body of `ellipticCurveMultiply`: double the
accumulator, then add the base point when the current bit is set. -/
def ecMulLoop (tx ty : ℤ) : ℤ × ℤ → List Bool → ℤ × ℤ
  | res, [] => res
  | res, b :: rest =>
    let d := ellipticCurveAdd res.1 res.2 res.1 res.2
    let res' := if b then ellipticCurveAdd d.1 d.2 tx ty else d
    ecMulLoop tx ty res' rest

/-- Scalar multiplication from `ecdsa_test.go` (`ellipticCurveMultiply`):
double-and-add from the most significant bit; `k = 0` yields the
infinity sentinel `(0, 0)`. -/
def ellipticCurveMultiply (x y : ℤ) (k : ℕ) : ℤ × ℤ :=
  if k = 0 then (0, 0)
  else ecMulLoop x y (0, 0) (natBitsMSB k)

/-- Private-key generation from `ecdsa_test.go`: the body is exactly
`rand.Int(rand.Reader, n)`, so the function is the identity on the drawn
random integer, which `rand.Int` guarantees to be uniform in `[0, n)`. -/
def generatePrivateKey (outcome : ℤ) : ℤ := outcome

/-- Public-key computation from `ecdsa_test.go`. -/
def calculatePublicKey (privKey : ℕ) : ℤ × ℤ :=
  ellipticCurveMultiply Gx Gy privKey

/-- ECDSA verification from `ecdsa_test.go` (`verifySignature`).  The
SHA-256 collaborator is the parameter `H`. -/
def verifySignature (H : List ℕ → List ℕ) (pubKeyX pubKeyY : ℤ)
    (message : List ℕ) (r s : ℤ) : Bool :=
  let messageHash := H message
  if r ≤ 0 ∨ n ≤ r ∨ s ≤ 0 ∨ n ≤ s then false
  else
    let w := modInverse s n
    let u1 := (fromBytesBE messageHash * w) % n
    let u2 := (r * w) % n
    let P1 := ellipticCurveMultiply Gx Gy u1.toNat
    let P2 := ellipticCurveMultiply pubKeyX pubKeyY u2.toNat
    let R := ellipticCurveAdd P1.1 P1.2 P2.1 P2.2
    decide (R.1 % n = r)

/-- Ethereum-style verification from `part_001`
(`verifySignatureEthereum`).  The go-ethereum collaborators —
`crypto.ValidateSignatureValues` and the `crypto.S256()` curve
operations — are external library calls and appear as explicit function
parameters; the library constant `S256().Params().N` is the secp256k1
order `n`.  The `uint8` subtraction `v - 27` wraps modulo 256. -/
def verifySignatureEthereum (validateSig : ℕ → ℤ → ℤ → Bool)
    (scalarBaseMult : List ℕ → ℤ × ℤ) (scalarMult : ℤ → ℤ → List ℕ → ℤ × ℤ)
    (curveAdd : ℤ → ℤ → ℤ → ℤ → ℤ × ℤ)
    (messageHash : List ℕ) (r s : ℤ) (v : ℕ) (pubKeyX pubKeyY : ℤ) : Bool :=
  if v ≠ 27 ∧ v ≠ 28 then false
  else if ¬ validateSig v r s then false
  else
    match modInverseGo s n with
    | none => false
    | some w =>
      let u1 := (fromBytesBE messageHash * w) % n
      let u2 := (r * w) % n
      let P1 := scalarBaseMult (natToBytesBE u1.toNat)
      let P2 := scalarMult pubKeyX pubKeyY (natToBytesBE u2.toNat)
      let R := curveAdd P1.1 P1.2 P2.1 P2.2
      if (R.2 % 2).toNat ≠ (v + 256 - 27) % 256 then false
      else decide (R.1 % n = r)

/-- Legendre symbol via Euler's criterion, from `part_002`
(`legendre`); `Rsh(p, 1)` is the floor division `p / 2`. -/
def legendre (a m : ℤ) : ℤ :=
  if a = 0 then 0
  else if powMod a (m / 2).toNat m = 1 then 1 else -1

/-- Modular square root from `part_002` (`modSqrt`): Euler test first,
then the direct `a ^ ((p+1)/4)` formula for `p ≡ 3 (mod 4)`; `none`
otherwise. -/
def modSqrt (a m : ℤ) : Option ℤ :=
  if legendre a m ≠ 1 then none
  else if m % 4 = 3 then some (powMod a ((m + 1) / 4).toNat m)
  else none

/-- Candidate y-coordinate from `part_002` (`calculateY`): solve
`y² = x³ + 7` and pick the root whose parity matches the (already
reduced) recovery bit `v`. -/
def calculateY (x : ℤ) (v : ℕ) : Option ℤ :=
  match modSqrt ((x * x * x + 7) % p) p with
  | none => none
  | some y => if (y % 2).toNat ≠ v then some (p - y) else some y

/-- Public-key recovery from `part_002` (`RecoverPublicKey`); Go's
`(nil, nil, error)` returns are embedded as `none`.  The `uint8`
subtraction `v = v - 27` wraps modulo 256, and the `rInv == nil` check
is `big.Int.ModInverse` returning `nil`. -/
def RecoverPublicKey (msgHash : List ℕ) (r s : ℤ) (v : ℕ) : Option (ℤ × ℤ) :=
  if msgHash.length ≠ 32 then none
  else if n ≤ r ∨ n ≤ s then none
  else if (v + 256 - 27) % 256 ≠ 0 ∧ (v + 256 - 27) % 256 ≠ 1 then none
  else
    match calculateY r ((v + 256 - 27) % 256) with
    | none => none
    | some ry =>
      match modInverseGo r n with
      | none => none
      | some rInv =>
        let e := (-(fromBytesBE msgHash)) % n
        let u1 := (e * rInv) % n
        let u2 := (s * rInv) % n
        let P1 := ellipticCurveMultiply Gx Gy u1.toNat
        let P2 := ellipticCurveMultiply r ry u2.toNat
        some (ellipticCurveAdd P1.1 P1.2 P2.1 P2.2)

/-- Public-key recovery wrapper from `part_002`
(`RecoverPublicKeyFromRSV`): re-checks the hash length and ranges,
requires `v ∈ {27, 28}` strictly, then delegates to
`RecoverPublicKey`. -/
def RecoverPublicKeyFromRSV (msgHash : List ℕ) (r s : ℤ) (v : ℕ) :
    Option (ℤ × ℤ) :=
  if msgHash.length ≠ 32 then none
  else if n ≤ r ∨ n ≤ s then none
  else if v ≠ 27 ∧ v ≠ 28 then none
  else RecoverPublicKey msgHash r s v

/-- Model of the standard-library `big.Int.ModSqrt(x, p)` for odd primes
`p ≡ 3 (mod 4)` (the only case reached here): `0` maps to `0`, a
quadratic residue to `x ^ ((p+1)/4) mod p`, and a non-residue to `none`
(Go returns `nil`). -/
def modSqrtStd (a m : ℤ) : Option ℤ :=
  if a % m = 0 then some 0
  else if powMod (a % m) (m / 2).toNat m = 1 then
    some (powMod (a % m) ((m + 1) / 4).toNat m)
  else none

/-- Public-key recovery from `part_001` (`recoverPublicKey`), the
variant that returns `(nil, nil)` on failure, embedded as `none`.  It
checks `r, s ∈ (0, n)`, reconstructs `R` with the standard library's
`ModSqrt`, flips the root when its parity differs from `uint(v-27)`
(for `v ∉ {27, 28}` that comparison is simply always true), and never
rejects `v` itself. -/
def recoverPublicKeyV1 (messageHash : List ℕ) (r s : ℤ) (v : ℕ) :
    Option (ℤ × ℤ) :=
  if r ≤ 0 ∨ n ≤ r ∨ s ≤ 0 ∨ n ≤ s then none
  else
    match modSqrtStd ((r * r * r + 7) % p) p with
    | none => none
    | some ry0 =>
      match modInverseGo r n with
      | none => none
      | some rInv =>
        let ry := if (ry0 % 2).toNat ≠ (v + 256 - 27) % 256 then p - ry0 else ry0
        let e := (-(fromBytesBE messageHash)) % n
        let u1 := (e * rInv) % n
        let u2 := (s * rInv) % n
        let P1 := ellipticCurveMultiply Gx Gy u1.toNat
        let P2 := ellipticCurveMultiply r ry u2.toNat
        some (ellipticCurveAdd P1.1 P1.2 P2.1 P2.2)

/-! ## Edwards25519 (`part_000`) -/

/-- Edwards25519 field prime `2^255 - 19`. -/
def edP : ℤ := 0x7fffffffffffffffffffffffffffffffffffffffffffffffffffffffffffffed

/-- Edwards25519 curve constant `d = -121665/121666`. -/
def edD : ℤ := 0x52036cee2b6ffe738cc740797779e89800700a4d4141d8ab75eb4dca135978a3

/-- Edwards25519 base point x-coordinate. -/
def edGx : ℤ := 0x216936d3cd6e53fec0a4e231fdd6dc5c692cc7609525a7b2c9562d608f25d51a

/-- Edwards25519 base point y-coordinate. -/
def edGy : ℤ := 0x6666666666666666666666666666666666666666666666666666666666666658

/-- Edwards25519 group order `L`. -/
def edL : ℤ := 0x1000000000000000000000000000000014def9dea2f79cd65812631a5cf5d3ed

/-- Twisted-Edwards unified point addition from `part_000`
(`edwardsAdd`). -/
def edwardsAdd (x1 y1 x2 y2 : ℤ) : ℤ × ℤ :=
  let x1y2 := x1 * y2
  let y1x2 := y1 * x2
  let dxy := edD * (x1y2 * y1x2)
  let x3 := ((x1y2 + y1x2) * modInverse (1 + dxy) edP) % edP
  let y3 := ((y1 * y2 - x1 * x2) * modInverse (1 - dxy) edP) % edP
  (x3, y3)

/-- LSB-first bits of one byte, as iterated by `edwardsScalarMult`. -/
def byteBitsLSB (b : ℕ) : List Bool :=
  (List.range 8).map fun i => b.testBit i

/-- Inner loop of `edwardsScalarMult`: add the running power point when
the bit is set, then double the power point (always, even on the last
bit). -/
def edLoop : ℤ × ℤ → ℤ × ℤ → List Bool → ℤ × ℤ
  | res, _, [] => res
  | res, temp, bit :: rest =>
    let res' := if bit then edwardsAdd res.1 res.2 temp.1 temp.2 else res
    let temp' := edwardsAdd temp.1 temp.2 temp.1 temp.2
    edLoop res' temp' rest

/-- Edwards scalar multiplication from `part_000` (`edwardsScalarMult`):
double-and-add over the scalar bytes, least-significant byte and bit
first, starting from the identity `(0, 1)`. -/
def edwardsScalarMult (x y : ℤ) (scalar : List ℕ) : ℤ × ℤ :=
  edLoop (0, 1) (x, y) ((scalar.map byteBitsLSB).flatten)

/-- Point encoding from `part_000` (`encodePublicKey`): a 32-byte buffer
receiving the big-endian bytes of `x` from index 0 on, with the parity
of `y` (`y.Bit(0)`) folded into the `0x80` bit of the final byte. -/
def encodePublicKey (x y : ℤ) : List ℕ :=
  let pk := goCopy (List.replicate 32 0) (natToBytesBE x.toNat)
  if y % 2 = 1 then pk.set 31 ((pk.getD 31 0) ||| 128) else pk

/-- The point-decoding logic inside `eddsaVerify` (`part_000`, the only
decode logic in the code): the x-coordinate is `SetBytes` of the FIRST
31 bytes only, and the y-coordinate is the raw sign bit `0` or `1`
(`SetBit 0` on zero) — the curve equation is never consulted. -/
def decodePoint (bytes : List ℕ) : ℤ × ℤ :=
  (fromBytesBE (bytes.take 31),
   if (bytes.getD 31 0) &&& 128 ≠ 0 then 1 else 0)

/-- Steps 1–2 of `eddsaSign` (`part_000`): the nonce
`r = H(privateKey[32:] ‖ message)`, the point `R = rB`, and its 32-byte
encoding (big-endian bytes of `Rx` from index 0, parity of `Ry` in the
`0x80` bit of the last byte). -/
def eddsaR (H : List ℕ → List ℕ) (privateKey message : List ℕ) : List ℕ :=
  let r := H (privateKey.drop 32 ++ message)
  let RP := edwardsScalarMult edGx edGy (r.take 32)
  let R0 := goCopy (List.replicate 32 0) (natToBytesBE RP.1.toNat)
  if RP.2 % 2 = 1 then R0.set 31 ((R0.getD 31 0) ||| 128) else R0

/-- Steps 3–4 of `eddsaSign` (`part_000`): the scalar
`S = (k·x + r) mod L` with `k = H(R ‖ privateKey[32:] ‖ message)`. -/
def eddsaS (H : List ℕ → List ℕ) (privateKey message : List ℕ) : ℤ :=
  let r := H (privateKey.drop 32 ++ message)
  let k := H (eddsaR H privateKey message ++ privateKey.drop 32 ++ message)
  let kInt := fromBytesBE k
  let rInt := fromBytesBE (r.take 32)
  let x := fromBytesBE (privateKey.take 32)
  (kInt * x + rInt) % edL

/-- EdDSA signing from `part_000` (`eddsaSign`), with the SHA-512
collaborator as the parameter `H`.  `privateKey[32:]` and
`privateKey[:32]` are `List.drop 32` and `List.take 32`; the two
`copy` calls into the fresh 64-byte signature buffer fill its disjoint
halves. -/
def eddsaSign (H : List ℕ → List ℕ) (privateKey message : List ℕ) : List ℕ :=
  goCopy (List.replicate 32 0) (eddsaR H privateKey message) ++
    goCopy (List.replicate 32 0) (natToBytesBE (eddsaS H privateKey message).toNat)

/-- EdDSA verification from `part_000` (`eddsaVerify`), with the SHA-512
collaborator as the parameter `H`; uses the broken `decodePoint`
fragment above for both `R` and the public key. -/
def eddsaVerify (H : List ℕ → List ℕ) (publicKey message signature : List ℕ) :
    Bool :=
  if signature.length ≠ 64 then false
  else
    let R := signature.take 32
    let S := signature.drop 32
    let k := H (R ++ publicKey ++ message)
    let sB := edwardsScalarMult edGx edGy S
    let Rpt := decodePoint R
    let Apt := decodePoint publicKey
    let kA := edwardsScalarMult Apt.1 Apt.2 k
    let right := edwardsAdd Rpt.1 Rpt.2 kA.1 kA.2
    decide (sB = right)

/-- Edwards25519 curve equation `-x² + y² = 1 + d·x²·y²` over the
field of `edP` elements, stated on reduced residues. -/
def edwardsOnCurve (x y : ℤ) : Prop :=
  (-(x * x) + y * y) % edP = (1 + edD * (x * x) * (y * y)) % edP

/-! ## Specification-side formulas (for the case-split claim) -/

/-- Chord-and-tangent completion as the specification words it: from a
slope `s`, `x₃ = s² − x₁ − x₂` and `y₃ = s·(x₁ − x₃) − y₁`, reduced
modulo `p`. -/
def slopeCompletion (s x1 y1 x2 : ℤ) : ℤ × ℤ :=
  let x3 := (s * s - x1 - x2) % p
  (x3, ((x1 - x3) * s - y1) % p)

/-- The tangent slope `3x² / (2y)` of the specification, the division
performed via the modular inverse. -/
def tangentSlope (x y : ℤ) : ℤ :=
  (modInverse (2 * y) p * ((3 * x * x) % p)) % p

/-- The chord slope `(y₂ − y₁) / (x₂ − x₁)` of the specification, the
division performed via the modular inverse. -/
def chordSlope (x1 y1 x2 y2 : ℤ) : ℤ :=
  (modInverse (x2 - x1) p * ((y2 - y1) % p)) % p

/-! ## Auxiliary lemmas -/

theorem modInverse_emod (g m : ℤ) : modInverse (g % m) m = modInverse g m := by
  simp only [modInverse, modInverseGo, bezoutInv,
    Int.emod_emod_of_dvd g (dvd_refl m)]

theorem emod_bounds (a m : ℤ) (hm : 0 < m) : 0 ≤ a % m ∧ a % m < m :=
  ⟨Int.emod_nonneg a (ne_of_gt hm), Int.emod_lt_of_pos a hm⟩

theorem eddsaR_length (H : List ℕ → List ℕ) (sk m : List ℕ) :
    (eddsaR H sk m).length = 32 := by
  simp only [eddsaR]
  split
  · rw [List.length_set, goCopy_length, List.length_replicate]
  · rw [goCopy_length, List.length_replicate]

theorem eddsaR_congr (H : List ℕ → List ℕ) (sk1 sk2 m : List ℕ)
    (h : sk1.drop 32 = sk2.drop 32) :
    eddsaR H sk1 m = eddsaR H sk2 m := by
  unfold eddsaR
  rw [h]

/-! ## Claim theorems -/

set_option maxRecDepth 10000

/-- C3: the claim states that decoding the 32-byte encoding produced by
`encodePublicKey` recovers every valid curve point, the decoder
recomputing the missing coordinate from the curve equation.  The code
contradicts this (and its own test, which expects `eddsaVerify` to
accept a freshly produced signature): the only decode logic in the code
reads just the first 31 bytes as `x` and uses the raw sign bit as the
whole `y` coordinate.  Already on the Edwards25519 base point — a valid
curve point — `decode (encode P)` returns `(x / 256, 0)` instead of
`P`. -/
theorem decode_encode_fails_on_base_point :
    edwardsOnCurve edGx edGy ∧
    decodePoint (encodePublicKey edGx edGy) = (edGx / 256, 0) ∧
    decodePoint (encodePublicKey edGx edGy) ≠ (edGx, edGy) :=
  ⟨by unfold edwardsOnCurve; decide, by decide, by decide⟩

/-- C4 (counterexample): `generatePrivateKey` is `rand.Int(rand.Reader, n)`,
whose outcome ranges over all of `[0, n)`; the outcome `0` is in range
and is returned as the private key unchanged, so zero is not excluded by
any rejection sampling. -/
theorem generatePrivateKey_zero_possible :
    (0 : ℤ) ≤ 0 ∧ (0 : ℤ) < n ∧ generatePrivateKey 0 = 0 ∧
      ¬(1 ≤ generatePrivateKey 0) :=
  ⟨le_refl 0, by decide, rfl, by decide⟩

/-- C4 (amended): every value returned by `generatePrivateKey` lies in
`[0, n)` — the half-open interval from zero, not from one: the code
draws uniformly from `[0, n)` and performs no rejection of zero. -/
theorem generatePrivateKey_in_range (outcome : ℤ)
    (h0 : 0 ≤ outcome) (h1 : outcome < n) :
    0 ≤ generatePrivateKey outcome ∧ generatePrivateKey outcome < n :=
  ⟨h0, h1⟩

theorem generatePrivateKey_in_range_witness :
    (0 : ℤ) ≤ 5 ∧ (5 : ℤ) < n ∧
      (0 ≤ generatePrivateKey 5 ∧ generatePrivateKey 5 < n) :=
  ⟨by decide, by decide, generatePrivateKey_in_range 5 (by decide) (by decide)⟩

/-- C5: EdDSA signing is deterministic — the embedded `eddsaSign` is a
pure function of the hash collaborator, the private key and the message
(no random source appears anywhere in its definition), so two calls on
the same inputs return the same signature, and every signature is
exactly 64 bytes long.  The length hypothesis keeps the inputs inside
the domain on which the Go slicing `privateKey[:32]` is defined. -/
theorem eddsaSign_deterministic (H : List ℕ → List ℕ) (sk m : List ℕ)
    (_hsk : 32 ≤ sk.length) :
    (eddsaSign H sk m).length = 64 ∧
    ∀ s1 s2, s1 = eddsaSign H sk m → s2 = eddsaSign H sk m → s1 = s2 := by
  constructor
  · rw [eddsaSign, List.length_append, goCopy_length, goCopy_length,
      List.length_replicate]
  · intro s1 s2 h1 h2
    rw [h1, h2]

theorem eddsaSign_deterministic_witness :
    32 ≤ (List.replicate 32 0).length ∧
    ((eddsaSign (fun _ => List.replicate 64 0) (List.replicate 32 0) []).length = 64 ∧
     ∀ s1 s2, s1 = eddsaSign (fun _ => List.replicate 64 0) (List.replicate 32 0) [] →
       s2 = eddsaSign (fun _ => List.replicate 64 0) (List.replicate 32 0) [] → s1 = s2) :=
  ⟨by decide,
   eddsaSign_deterministic (fun _ => List.replicate 64 0) (List.replicate 32 0) []
     (by decide)⟩

/-- C10: for the 32-byte private keys that `generateEdDSAKeyPair`
produces, the nonce hash reads `privateKey[32:]`, which is empty, so the
nonce — and with it the first 32 signature bytes, the encoding of `R` —
is the same for every key: it depends on the message alone.  This holds
for an arbitrary hash collaborator `H`. -/
theorem eddsaSign_R_independent_of_key (H : List ℕ → List ℕ)
    (sk1 sk2 m : List ℕ) (h1 : sk1.length = 32) (h2 : sk2.length = 32) :
    (eddsaSign H sk1 m).take 32 = (eddsaSign H sk2 m).take 32 := by
  have d1 : sk1.drop 32 = [] := by rw [← h1]; exact List.drop_length sk1
  have d2 : sk2.drop 32 = [] := by rw [← h2]; exact List.drop_length sk2
  have hR : eddsaR H sk1 m = eddsaR H sk2 m :=
    eddsaR_congr H sk1 sk2 m (by rw [d1, d2])
  have key : ∀ sk : List ℕ, (eddsaSign H sk m).take 32 =
      goCopy (List.replicate 32 0) (eddsaR H sk m) := by
    intro sk
    rw [eddsaSign]
    have hlen : (goCopy (List.replicate 32 0) (eddsaR H sk m)).length = 32 := by
      rw [goCopy_length, List.length_replicate]
    exact List.take_left' hlen
  rw [key sk1, key sk2, hR]

theorem eddsaSign_R_independent_of_key_witness :
    (List.replicate 32 0).length = 32 ∧ (List.replicate 32 7).length = 32 ∧
    (eddsaSign (fun _ => List.replicate 64 0) (List.replicate 32 0) [1]).take 32 =
      (eddsaSign (fun _ => List.replicate 64 0) (List.replicate 32 7) [1]).take 32 :=
  ⟨by decide, by decide,
   eddsaSign_R_independent_of_key (fun _ => List.replicate 64 0)
     (List.replicate 32 0) (List.replicate 32 7) [1] (by decide) (by decide)⟩

/-- C7: ECDSA verification rejects out-of-range inputs up front and
returns `false` rather than crashing: `verifySignature` returns `false`
whenever `r` or `s` lies outside `(0, n)` (its very first test, before
any curve arithmetic), and `verifySignatureEthereum` returns `false`
whenever `v ∉ {27, 28}` (its very first test), for every choice of the
go-ethereum collaborator functions. -/
theorem verification_rejects_out_of_range :
    (∀ (H : List ℕ → List ℕ) (pkx pky : ℤ) (m : List ℕ) (r s : ℤ),
      r ≤ 0 ∨ n ≤ r ∨ s ≤ 0 ∨ n ≤ s →
      verifySignature H pkx pky m r s = false) ∧
    (∀ (validateSig : ℕ → ℤ → ℤ → Bool) (sBM : List ℕ → ℤ × ℤ)
      (sM : ℤ → ℤ → List ℕ → ℤ × ℤ) (cA : ℤ → ℤ → ℤ → ℤ → ℤ × ℤ)
      (h : List ℕ) (r s : ℤ) (v : ℕ) (pkx pky : ℤ),
      v ≠ 27 → v ≠ 28 →
      verifySignatureEthereum validateSig sBM sM cA h r s v pkx pky = false) := by
  constructor
  · intro H pkx pky m r s hrange
    rw [verifySignature, if_pos hrange]
  · intro validateSig sBM sM cA h r s v pkx pky h27 h28
    rw [verifySignatureEthereum, if_pos ⟨h27, h28⟩]

theorem verification_rejects_out_of_range_witness :
    verifySignature (fun _ => []) 0 0 [] 0 1 = false ∧
    verifySignatureEthereum (fun _ _ _ => true) (fun _ => (0, 0))
      (fun _ _ _ => (0, 0)) (fun _ _ _ _ => (0, 0)) [] 1 1 26 0 0 = false :=
  ⟨verification_rejects_out_of_range.1 (fun _ => []) 0 0 [] 0 1
     (Or.inl (le_refl 0)),
   verification_rejects_out_of_range.2 (fun _ _ _ => true) (fun _ => (0, 0))
     (fun _ _ _ => (0, 0)) (fun _ _ _ _ => (0, 0)) [] 1 1 26 0 0
     (by decide) (by decide)⟩

/-- C9: reduction invariant — on inputs whose coordinates are already
reduced, both coordinates returned by `ellipticCurveAdd` lie in `[0, p)`
and both coordinates returned by `edwardsAdd` lie in `[0, edP)`, on
every return path including the infinity and special-case branches. -/
theorem add_returns_reduced_coordinates :
    (∀ x1 y1 x2 y2 : ℤ,
      0 ≤ x1 → x1 < p → 0 ≤ y1 → y1 < p → 0 ≤ x2 → x2 < p → 0 ≤ y2 → y2 < p →
      (0 ≤ (ellipticCurveAdd x1 y1 x2 y2).1 ∧ (ellipticCurveAdd x1 y1 x2 y2).1 < p) ∧
      (0 ≤ (ellipticCurveAdd x1 y1 x2 y2).2 ∧ (ellipticCurveAdd x1 y1 x2 y2).2 < p)) ∧
    (∀ x1 y1 x2 y2 : ℤ,
      0 ≤ x1 → x1 < edP → 0 ≤ y1 → y1 < edP → 0 ≤ x2 → x2 < edP → 0 ≤ y2 → y2 < edP →
      (0 ≤ (edwardsAdd x1 y1 x2 y2).1 ∧ (edwardsAdd x1 y1 x2 y2).1 < edP) ∧
      (0 ≤ (edwardsAdd x1 y1 x2 y2).2 ∧ (edwardsAdd x1 y1 x2 y2).2 < edP)) := by
  have hp : (0 : ℤ) < p := by decide
  have hep : (0 : ℤ) < edP := by decide
  constructor
  · intro x1 y1 x2 y2 hx1l hx1u hy1l hy1u hx2l hx2u hy2l hy2u
    unfold ellipticCurveAdd
    split_ifs <;>
      first
        | exact ⟨⟨hx2l, hx2u⟩, ⟨hy2l, hy2u⟩⟩
        | exact ⟨⟨hx1l, hx1u⟩, ⟨hy1l, hy1u⟩⟩
        | exact ⟨⟨le_refl 0, hp⟩, ⟨le_refl 0, hp⟩⟩
        | exact ⟨emod_bounds _ p hp, emod_bounds _ p hp⟩
  · intro x1 y1 x2 y2 _ _ _ _ _ _ _ _
    exact ⟨emod_bounds _ edP hep, emod_bounds _ edP hep⟩

theorem add_returns_reduced_coordinates_witness :
    ((0 ≤ (ellipticCurveAdd 0 0 1 2).1 ∧ (ellipticCurveAdd 0 0 1 2).1 < p) ∧
     (0 ≤ (ellipticCurveAdd 0 0 1 2).2 ∧ (ellipticCurveAdd 0 0 1 2).2 < p)) ∧
    ((0 ≤ (edwardsAdd 0 1 0 1).1 ∧ (edwardsAdd 0 1 0 1).1 < edP) ∧
     (0 ≤ (edwardsAdd 0 1 0 1).2 ∧ (edwardsAdd 0 1 0 1).2 < edP)) :=
  ⟨add_returns_reduced_coordinates.1 0 0 1 2 (by decide) (by decide) (by decide)
     (by decide) (by decide) (by decide) (by decide) (by decide),
   add_returns_reduced_coordinates.2 0 1 0 1 (by decide) (by decide) (by decide)
     (by decide) (by decide) (by decide) (by decide) (by decide)⟩

theorem tangentSlope_eq (x y : ℤ) :
    (modInverse ((y * 2) % p) p * ((x * x * 3) % p)) % p = tangentSlope x y := by
  unfold tangentSlope
  rw [modInverse_emod]
  ring_nf

theorem chordSlope_eq (x1 y1 x2 y2 : ℤ) :
    (modInverse ((x2 - x1) % p) p * ((y2 - y1) % p)) % p = chordSlope x1 y1 x2 y2 := by
  unfold chordSlope
  rw [modInverse_emod]

/-- C6: `ellipticCurveAdd` implements exactly the Weierstrass case
split, in the order the source tests it: either operand equal to the
infinity sentinel `(0, 0)` returns the other operand unchanged; equal
`x` with different `y` (the `P = -Q` case on curve points) returns
infinity; doubling a point with `y = 0` returns infinity; doubling with
`y ≠ 0` uses the tangent slope `3x²/(2y)`; and distinct `x` uses the
chord slope `(y₂−y₁)/(x₂−x₁)`, every division via the modular
inverse. -/
theorem ellipticCurveAdd_case_split (x1 y1 x2 y2 : ℤ) :
    (x1 = 0 ∧ y1 = 0 → ellipticCurveAdd x1 y1 x2 y2 = (x2, y2)) ∧
    (¬(x1 = 0 ∧ y1 = 0) → x2 = 0 ∧ y2 = 0 →
      ellipticCurveAdd x1 y1 x2 y2 = (x1, y1)) ∧
    (¬(x1 = 0 ∧ y1 = 0) → ¬(x2 = 0 ∧ y2 = 0) → x1 = x2 → y1 ≠ y2 →
      ellipticCurveAdd x1 y1 x2 y2 = (0, 0)) ∧
    (¬(x1 = 0 ∧ y1 = 0) → ¬(x2 = 0 ∧ y2 = 0) → x1 = x2 → y1 = y2 → y1 = 0 →
      ellipticCurveAdd x1 y1 x2 y2 = (0, 0)) ∧
    (¬(x1 = 0 ∧ y1 = 0) → ¬(x2 = 0 ∧ y2 = 0) → x1 = x2 → y1 = y2 → y1 ≠ 0 →
      ellipticCurveAdd x1 y1 x2 y2 =
        slopeCompletion (tangentSlope x1 y1) x1 y1 x2) ∧
    (¬(x1 = 0 ∧ y1 = 0) → ¬(x2 = 0 ∧ y2 = 0) → x1 ≠ x2 →
      ellipticCurveAdd x1 y1 x2 y2 =
        slopeCompletion (chordSlope x1 y1 x2 y2) x1 y1 x2) := by
  refine ⟨?_, ?_, ?_, ?_, ?_, ?_⟩
  · intro h
    rw [ellipticCurveAdd, if_pos h]
  · intro h1 h2
    rw [ellipticCurveAdd, if_neg h1, if_pos h2]
  · intro h1 h2 hx hy
    rw [ellipticCurveAdd, if_neg h1, if_neg h2,
      if_neg (fun h : x1 = x2 ∧ y1 = y2 ∧ y1 = 0 => hy h.2.1),
      if_pos ⟨hx, hy⟩]
  · intro h1 h2 hx hy hy0
    rw [ellipticCurveAdd, if_neg h1, if_neg h2, if_pos ⟨hx, hy, hy0⟩]
  · intro h1 h2 hx hy hy0
    rw [ellipticCurveAdd, if_neg h1, if_neg h2,
      if_neg (fun h : x1 = x2 ∧ y1 = y2 ∧ y1 = 0 => hy0 h.2.2),
      if_neg (fun h : x1 = x2 ∧ y1 ≠ y2 => h.2 hy),
      if_pos (show x1 = x2 ∧ y1 = y2 from ⟨hx, hy⟩),
      tangentSlope_eq, slopeCompletion]
  · intro h1 h2 hx
    rw [ellipticCurveAdd, if_neg h1, if_neg h2,
      if_neg (fun h : x1 = x2 ∧ y1 = y2 ∧ y1 = 0 => hx h.1),
      if_neg (fun h : x1 = x2 ∧ y1 ≠ y2 => hx h.1)]
    rw [if_neg (show ¬(x1 = x2 ∧ y1 = y2) from fun h => hx h.1),
      chordSlope_eq, slopeCompletion]

theorem ellipticCurveAdd_case_split_witness :
    ellipticCurveAdd 0 0 1 2 = (1, 2) ∧
    ellipticCurveAdd 1 2 0 0 = (1, 2) ∧
    ellipticCurveAdd 1 2 1 3 = (0, 0) ∧
    ellipticCurveAdd 1 0 1 0 = (0, 0) ∧
    ellipticCurveAdd Gx Gy Gx Gy = slopeCompletion (tangentSlope Gx Gy) Gx Gy Gx ∧
    ellipticCurveAdd 1 2 3 4 = slopeCompletion (chordSlope 1 2 3 4) 1 2 3 :=
  ⟨(ellipticCurveAdd_case_split 0 0 1 2).1 ⟨rfl, rfl⟩,
   (ellipticCurveAdd_case_split 1 2 0 0).2.1 (by decide) ⟨rfl, rfl⟩,
   (ellipticCurveAdd_case_split 1 2 1 3).2.2.1 (by decide) (by decide) rfl (by decide),
   (ellipticCurveAdd_case_split 1 0 1 0).2.2.2.1 (by decide) (by decide) rfl rfl rfl,
   (ellipticCurveAdd_case_split Gx Gy Gx Gy).2.2.2.2.1 (by decide) (by decide)
     rfl rfl (by decide),
   (ellipticCurveAdd_case_split 1 2 3 4).2.2.2.2.2 (by decide) (by decide) (by decide)⟩

theorem modInverseGo_eq_none (g m : ℤ) :
    modInverseGo g m = none ↔ Int.gcd (g % m) m ≠ 1 := by
  unfold modInverseGo
  split_ifs with h <;> simp [h]

theorem modSqrt_p_eq_none (a : ℤ) : modSqrt a p = none ↔ legendre a p ≠ 1 := by
  have hp4 : p % 4 = 3 := by decide
  unfold modSqrt
  split_ifs <;> simp_all

theorem calculateY_eq_none (x : ℤ) (v : ℕ) :
    calculateY x v = none ↔ legendre ((x * x * x + 7) % p) p ≠ 1 := by
  unfold calculateY
  rcases h : modSqrt ((x * x * x + 7) % p) p with _ | y
  · simp [(modSqrt_p_eq_none _).mp h]
  · have hl : legendre ((x * x * x + 7) % p) p = 1 := by
      by_contra hc
      rw [(modSqrt_p_eq_none _).mpr hc] at h
      exact Option.noConfusion h
    simp only [hl]
    split_ifs <;> simp

theorem modSqrtStd_p_eq_none (a : ℤ) :
    modSqrtStd a p = none ↔
      (a % p ≠ 0 ∧ powMod (a % p) (p / 2).toNat p ≠ 1) := by
  unfold modSqrtStd
  split_ifs <;> simp_all

theorem RecoverPublicKey_none_iff (h : List ℕ) (r s : ℤ) (v : ℕ) (hv : v < 256) :
    RecoverPublicKey h r s v = none ↔
      (h.length ≠ 32 ∨ n ≤ r ∨ n ≤ s ∨ (v ≠ 27 ∧ v ≠ 28) ∨
       legendre ((r * r * r + 7) % p) p ≠ 1 ∨ Int.gcd (r % n) n ≠ 1) := by
  unfold RecoverPublicKey
  split_ifs with hlen hrange hvv
  · exact iff_of_true rfl (Or.inl hlen)
  · exact iff_of_true rfl (Or.inr (by tauto))
  · refine iff_of_true rfl (Or.inr (Or.inr (Or.inr (Or.inl ?_))))
    omega
  · rcases hcy : calculateY r ((v + 256 - 27) % 256) with _ | ry
    · refine iff_of_true rfl (Or.inr (Or.inr (Or.inr (Or.inr (Or.inl ?_)))))
      exact (calculateY_eq_none r _).mp hcy
    · rcases hmi : modInverseGo r n with _ | rInv
      · refine iff_of_true rfl (Or.inr (Or.inr (Or.inr (Or.inr (Or.inr ?_)))))
        exact (modInverseGo_eq_none r n).mp hmi
      · refine iff_of_false (by simp) ?_
        push_neg at hlen hrange hvv ⊢
        refine ⟨hlen, hrange.1, hrange.2, by omega, ?_, ?_⟩
        · by_contra hleg
          rw [(calculateY_eq_none r _).mpr hleg] at hcy
          exact Option.noConfusion hcy
        · by_contra hgcd
          rw [(modInverseGo_eq_none r n).mpr hgcd] at hmi
          exact Option.noConfusion hmi

theorem RecoverPublicKeyFromRSV_none_iff (h : List ℕ) (r s : ℤ) (v : ℕ) :
    RecoverPublicKeyFromRSV h r s v = none ↔
      (h.length ≠ 32 ∨ n ≤ r ∨ n ≤ s ∨ (v ≠ 27 ∧ v ≠ 28) ∨
       legendre ((r * r * r + 7) % p) p ≠ 1 ∨ Int.gcd (r % n) n ≠ 1) := by
  unfold RecoverPublicKeyFromRSV
  split_ifs with hlen hrange hvv
  · exact iff_of_true rfl (Or.inl hlen)
  · exact iff_of_true rfl (Or.inr (by tauto))
  · exact iff_of_true rfl (Or.inr (Or.inr (Or.inr (Or.inl hvv))))
  · exact RecoverPublicKey_none_iff h r s v (by omega)

theorem recoverPublicKeyV1_none_iff (h : List ℕ) (r s : ℤ) (v : ℕ) :
    recoverPublicKeyV1 h r s v = none ↔
      (r ≤ 0 ∨ n ≤ r ∨ s ≤ 0 ∨ n ≤ s ∨
       ((r * r * r + 7) % p ≠ 0 ∧
        powMod ((r * r * r + 7) % p) (p / 2).toNat p ≠ 1) ∨
       Int.gcd (r % n) n ≠ 1) := by
  have hmm : ((r * r * r + 7) % p) % p = (r * r * r + 7) % p :=
    Int.emod_emod_of_dvd _ (dvd_refl p)
  unfold recoverPublicKeyV1
  split_ifs with hrange
  · exact iff_of_true rfl (by tauto)
  · rcases hms : modSqrtStd ((r * r * r + 7) % p) p with _ | ry0
    · refine iff_of_true rfl (Or.inr (Or.inr (Or.inr (Or.inr (Or.inl ?_)))))
      have := (modSqrtStd_p_eq_none _).mp hms
      rwa [hmm] at this
    · rcases hmi : modInverseGo r n with _ | rInv
      · refine iff_of_true rfl (Or.inr (Or.inr (Or.inr (Or.inr (Or.inr ?_)))))
        exact (modInverseGo_eq_none r n).mp hmi
      · refine iff_of_false (by simp) ?_
        push_neg at hrange ⊢
        refine ⟨hrange.1, hrange.2.1, hrange.2.2.1, hrange.2.2.2, ?_, ?_⟩
        · intro hnz
          by_contra hpw
          have : modSqrtStd ((r * r * r + 7) % p) p = none :=
            (modSqrtStd_p_eq_none _).mpr (by rw [hmm]; exact ⟨hnz, hpw⟩)
          rw [this] at hms
          exact Option.noConfusion hms
        · by_contra hgcd
          rw [(modInverseGo_eq_none r n).mpr hgcd] at hmi
          exact Option.noConfusion hmi

/-- C8 (counterexample): the claim says all three recovery functions
fail whenever `v ∉ {27, 28}`.  The nil-returning `recoverPublicKey`
of `part_001` only uses `v` to pick the root's parity and never rejects
it: with the all-zero 32-byte hash, `r = s = 1` and the illegal
`v = 29` it succeeds and returns a point. -/
theorem recoverPublicKeyV1_accepts_bad_v :
    ((29 : ℕ) ≠ 27 ∧ (29 : ℕ) ≠ 28) ∧
    (recoverPublicKeyV1 (List.replicate 32 0) 1 1 29).isSome = true :=
  ⟨by decide, by decide⟩

/-- C8 (amended): the exact failure conditions of the three recovery
functions.  `RecoverPublicKeyFromRSV` and `RecoverPublicKey` fail
exactly when the hash is not 32 bytes, `r ≥ n` or `s ≥ n` (values ≤ 0
pass the range test), `v ∉ {27, 28}`, `x³ + 7` is a quadratic
non-residue mod `p`, or `r` has no inverse mod `n` (in particular
`r = 0`; `s = 0` is accepted).  The nil-returning `recoverPublicKey`
fails exactly when `r ∉ (0, n)` or `s ∉ (0, n)`, `x³ + 7` is a nonzero
non-residue, or `r` has no inverse mod `n` — it never rejects `v`. -/
theorem recovery_failure_characterization :
    (∀ (h : List ℕ) (r s : ℤ) (v : ℕ), v < 256 →
      (RecoverPublicKey h r s v = none ↔
        (h.length ≠ 32 ∨ n ≤ r ∨ n ≤ s ∨ (v ≠ 27 ∧ v ≠ 28) ∨
         legendre ((r * r * r + 7) % p) p ≠ 1 ∨ Int.gcd (r % n) n ≠ 1))) ∧
    (∀ (h : List ℕ) (r s : ℤ) (v : ℕ),
      (RecoverPublicKeyFromRSV h r s v = none ↔
        (h.length ≠ 32 ∨ n ≤ r ∨ n ≤ s ∨ (v ≠ 27 ∧ v ≠ 28) ∨
         legendre ((r * r * r + 7) % p) p ≠ 1 ∨ Int.gcd (r % n) n ≠ 1))) ∧
    (∀ (h : List ℕ) (r s : ℤ) (v : ℕ),
      (recoverPublicKeyV1 h r s v = none ↔
        (r ≤ 0 ∨ n ≤ r ∨ s ≤ 0 ∨ n ≤ s ∨
         ((r * r * r + 7) % p ≠ 0 ∧
          powMod ((r * r * r + 7) % p) (p / 2).toNat p ≠ 1) ∨
         Int.gcd (r % n) n ≠ 1))) :=
  ⟨RecoverPublicKey_none_iff, RecoverPublicKeyFromRSV_none_iff,
   recoverPublicKeyV1_none_iff⟩

theorem recovery_failure_characterization_witness :
    RecoverPublicKey (List.replicate 32 0) 1 0 27 = none ↔
      ((List.replicate 32 (0 : ℕ)).length ≠ 32 ∨ n ≤ 1 ∨ n ≤ 0 ∨
       ((27 : ℕ) ≠ 27 ∧ (27 : ℕ) ≠ 28) ∨
       legendre ((1 * 1 * 1 + 7) % p) p ≠ 1 ∨ Int.gcd (1 % n) n ≠ 1) :=
  recovery_failure_characterization.1 (List.replicate 32 0) 1 0 27 (by decide)
